import Mathlib

/-!
Verification of the structured-extraction pipeline of a PDF summary-and-quiz
service.  The Python sources (`main.py`, `server.py`) are modelled shallowly:
raw response text is `List Char`, the generation client and the HTTP client
are injected as function parameters, and Python exceptions become `Except`
values.  `json.loads` and the pydantic validation are modelled by an
executable JSON parser and a structural validator.  Modelling restrictions
are noted at each definition (JSON numbers are integers only, the `NaN` and
`Infinity` literals are not recognised, leading zeros are tolerated by the
number parser, and pydantic's lenient cross-type coercions such as
int-to-str are omitted; none of these corners is exercised by the theorems
below).
-/

namespace McpSt

/-- Whitespace characters removed by Python `str.strip()` (ASCII subset; the
rarely used Unicode space characters are omitted from the model). -/
def isPyWs (c : Char) : Bool :=
  c = ' ' || c = '\t' || c = '\n' || c = '\r' || c = '\x0b' || c = '\x0c'

/-- Python `s.strip(chars)`: remove the characters satisfying `p` from both
ends (and only from the ends) of the text. -/
def pyStrip (p : Char → Bool) (cs : List Char) : List Char :=
  ((cs.dropWhile p).reverse.dropWhile p).reverse

/-- Python `str.strip()` with no argument (whitespace strip). -/
def stripWsL (cs : List Char) : List Char :=
  pyStrip isPyWs cs

/-- The code-fence marker (three backticks) tested by `raw_text.startswith`. -/
def fence : List Char :=
  ['\x60', '\x60', '\x60']

/-- The language tag `json` tested after fence stripping. -/
def jsonTag : List Char :=
  ['j', 's', 'o', 'n']

/-- Response normalizer shared by `summarize_and_quiz_pdf_bytes` (`main.py`,
lines 86-92) and `summarize_and_quiz_pdf_from_url` (`server.py`, lines
176-184): `raw_text = response.text.strip()`; if the result starts with
three backticks then `raw_text.strip("\x60")` removes backtick characters
from both ends, and if the remainder starts with `json` the first four
characters are dropped and the result re-trimmed. -/
def normalize (cs : List Char) : List Char :=
  let t := stripWsL cs
  if fence.isPrefixOf t then
    let t2 := pyStrip (fun c => c = '\x60') t
    if jsonTag.isPrefixOf t2 then stripWsL (t2.drop 4) else t2
  else t

/-- JSON values as produced by `json.loads`.  Objects are association lists
in document order (duplicate keys are resolved later-wins by `getField`,
matching Python dict construction).  Model restriction: numbers are
integers. -/
inductive Json where
  | null : Json
  | bool : Bool → Json
  | num : Int → Json
  | str : String → Json
  | arr : List Json → Json
  | obj : List (String × Json) → Json

/-- JSON whitespace (RFC 8259, as skipped by the `json` module). -/
def isJWs (c : Char) : Bool :=
  c = ' ' || c = '\t' || c = '\n' || c = '\r'

/-- Skip JSON whitespace. -/
def skipJWs (cs : List Char) : List Char :=
  cs.dropWhile isJWs

def untermMsg : String := "Unterminated string"

def invalidEscMsg : String := "Invalid escape"

def ctrlCharMsg : String := "Invalid control character"

def expectingValueMsg : String := "Expecting value"

def expColonMsg : String := "Expecting colon delimiter"

def expCommaArrMsg : String := "Expecting comma or close-bracket delimiter"

def expCommaObjMsg : String := "Expecting comma or close-brace delimiter"

def expPropMsg : String := "Expecting property name enclosed in double quotes"

def extraDataMsg : String := "Extra data"

def depthMsg : String := "Maximum recursion depth exceeded"

/-- Value of a hexadecimal digit character, if any. -/
def hexVal (c : Char) : Option Nat :=
  if '0' ≤ c && c ≤ '9' then some (c.toNat - 48)
  else if 'a' ≤ c && c ≤ 'f' then some (c.toNat - 87)
  else if 'A' ≤ c && c ≤ 'F' then some (c.toNat - 55)
  else none

/-- Translation of a single-character string escape. -/
def escCode (e : Char) : Option Char :=
  if e = '"' then some '"'
  else if e = '\\' then some '\\'
  else if e = '/' then some '/'
  else if e = 'b' then some '\x08'
  else if e = 'f' then some '\x0c'
  else if e = 'n' then some '\n'
  else if e = 'r' then some '\r'
  else if e = 't' then some '\t'
  else none

/-- Body of a JSON string after the opening quote: consume characters up to
the closing quote, decoding escapes.  `acc` holds the decoded characters in
reverse.  Model restriction: a `\u` escape yields `Char.ofNat` of its code
(surrogate-pair recombination is not modelled). -/
def parseStringBody : List Char → List Char → Except String (String × List Char)
  | [], _ => .error untermMsg
  | c :: rest, acc =>
    if c = '"' then .ok (String.mk acc.reverse, rest)
    else if c = '\\' then
      match rest with
      | [] => .error untermMsg
      | e :: rest2 =>
        if e = 'u' then
          match rest2 with
          | h1 :: h2 :: h3 :: h4 :: rest3 =>
            match hexVal h1, hexVal h2, hexVal h3, hexVal h4 with
            | some a, some b, some c3, some d =>
              parseStringBody rest3 (Char.ofNat (((a * 16 + b) * 16 + c3) * 16 + d) :: acc)
            | _, _, _, _ => .error invalidEscMsg
          | _ => .error untermMsg
        else
          match escCode e with
          | some ec => parseStringBody rest2 (ec :: acc)
          | none => .error invalidEscMsg
    else if c.toNat < 32 then .error ctrlCharMsg
    else parseStringBody rest (c :: acc)

/-- Digits of a decimal literal: the longest digit run, its value and the
remaining input.  Model restriction: leading zeros are tolerated, and
fraction or exponent parts are not recognised (integers only). -/
def parseNat (cs : List Char) : Except String (Nat × List Char) :=
  match cs.takeWhile (fun c => c.isDigit) with
  | [] => .error expectingValueMsg
  | d :: ds =>
    .ok ((d :: ds).foldl (fun a c => a * 10 + (c.toNat - 48)) 0,
      cs.dropWhile (fun c => c.isDigit))

/-- Match a literal keyword continuation (for `true`, `false`, `null`). -/
def stripLit : List Char → List Char → Option (List Char)
  | [], cs => some cs
  | l :: ls, c :: cs => if c = l then stripLit ls cs else none
  | _ :: _, [] => none

mutual

/-- Recursive-descent JSON value parser modelling `json.loads`.  The fuel
argument models the recursion limit; `json_loads` passes enough fuel that it
is never exhausted on any input it accepts. -/
def parseValue : Nat → List Char → Except String (Json × List Char)
  | 0, _ => .error depthMsg
  | fuel + 1, cs =>
    match skipJWs cs with
    | [] => .error expectingValueMsg
    | c :: rest =>
      if c = '\x7b' then
        match skipJWs rest with
        | '\x7d' :: r2 => .ok (.obj [], r2)
        | _ =>
          match parseMembers fuel rest with
          | .ok (ms, r) => .ok (.obj ms, r)
          | .error e => .error e
      else if c = '[' then
        match skipJWs rest with
        | ']' :: r2 => .ok (.arr [], r2)
        | _ =>
          match parseElems fuel rest with
          | .ok (vs, r) => .ok (.arr vs, r)
          | .error e => .error e
      else if c = '"' then
        match parseStringBody rest [] with
        | .ok (s, r) => .ok (.str s, r)
        | .error e => .error e
      else if c = 't' then
        match stripLit ['r', 'u', 'e'] rest with
        | some r => .ok (.bool true, r)
        | none => .error expectingValueMsg
      else if c = 'f' then
        match stripLit ['a', 'l', 's', 'e'] rest with
        | some r => .ok (.bool false, r)
        | none => .error expectingValueMsg
      else if c = 'n' then
        match stripLit ['u', 'l', 'l'] rest with
        | some r => .ok (.null, r)
        | none => .error expectingValueMsg
      else if c = '-' then
        match parseNat rest with
        | .ok (n, r) => .ok (.num (-(n : Int)), r)
        | .error e => .error e
      else if c.isDigit then
        match parseNat (c :: rest) with
        | .ok (n, r) => .ok (.num (n : Int), r)
        | .error e => .error e
      else .error expectingValueMsg

/-- One or more comma-separated array elements followed by a closing
bracket. -/
def parseElems : Nat → List Char → Except String (List Json × List Char)
  | 0, _ => .error depthMsg
  | fuel + 1, cs =>
    match parseValue fuel cs with
    | .error e => .error e
    | .ok (v, rest) =>
      match skipJWs rest with
      | ',' :: r2 =>
        match parseElems fuel r2 with
        | .ok (vs, r) => .ok (v :: vs, r)
        | .error e => .error e
      | ']' :: r2 => .ok ([v], r2)
      | _ => .error expCommaArrMsg

/-- One or more comma-separated object members followed by a closing
brace. -/
def parseMembers : Nat → List Char → Except String (List (String × Json) × List Char)
  | 0, _ => .error depthMsg
  | fuel + 1, cs =>
    match skipJWs cs with
    | '"' :: r1 =>
      match parseStringBody r1 [] with
      | .error e => .error e
      | .ok (k, r2) =>
        match skipJWs r2 with
        | ':' :: r3 =>
          match parseValue fuel r3 with
          | .error e => .error e
          | .ok (v, r4) =>
            match skipJWs r4 with
            | ',' :: r5 =>
              match parseMembers fuel r5 with
              | .ok (ms, r) => .ok ((k, v) :: ms, r)
              | .error e => .error e
            | '\x7d' :: r5 => .ok ([(k, v)], r5)
            | _ => .error expCommaObjMsg
        | _ => .error expColonMsg
    | _ => .error expPropMsg

end

/-- Model of Python `json.loads`: parse one JSON value and require only
whitespace to follow.  The fuel `4 * length + 4` is generous: the parser
spends at most two fuel units per consumed character. -/
def json_loads (cs : List Char) : Except String Json :=
  match parseValue (4 * cs.length + 4) cs with
  | .error e => .error e
  | .ok (v, rest) => if (skipJWs rest).isEmpty then .ok v else .error extraDataMsg


/-- Field-name constant of the schema. -/
def kSummary : String := "summary"

/-- Field-name constant of the schema. -/
def kQuiz : String := "quiz"

/-- Field-name constant of the schema. -/
def kQuestion : String := "question"

/-- Field-name constant of the schema. -/
def kChoices : String := "choices"

/-- Field-name constant of the schema. -/
def kCorrectIndex : String := "correct_index"

/-- Field-name constant of the schema. -/
def kExplanation : String := "explanation"

/-- Location label used in validation errors for a quiz item. -/
def itemLoc : String := "QuizItem"

/-- Location label used in validation errors for the root object. -/
def rootLoc : String := "PdfSummaryWithQuiz"

/-- Pydantic model `QuizItem` (`main.py` lines 25-33, `server.py` lines
38-51): question text, choices, answer index and optional explanation.
Note that the model itself places no constraint on the number of choices or
the range of `correct_index`. -/
structure QuizItem where
  question : String
  choices : List String
  correct_index : Int
  explanation : Option String
deriving DecidableEq

/-- Pydantic model `PdfSummaryWithQuiz` (`main.py` lines 36-39, `server.py`
lines 54-60). -/
structure PdfSummaryWithQuiz where
  summary : String
  quiz : List QuizItem
deriving DecidableEq

/-- Pydantic model `PdfSummary` (`server.py` lines 30-35). -/
structure PdfSummary where
  summary : String
deriving DecidableEq

/-- Validation failure, modelling `pydantic.ValidationError`: the location
names the offending field (or model, for a non-dict input). -/
inductive ValidationErr where
  | notDict (loc : String)
  | missingField (loc : String)
  | wrongType (loc : String)
deriving DecidableEq

/-- Look a key up in a parsed JSON object.  Python builds a `dict` from the
member list, so a later duplicate key overrides an earlier one; hence the
recursion prefers the tail. -/
def getField : List (String × Json) → String → Option Json
  | [], _ => none
  | (k, v) :: rest, key =>
    match getField rest key with
    | some r => some r
    | none => if k = key then some v else none

def asObj (loc : String) : Json → Except ValidationErr (List (String × Json))
  | .obj ms => .ok ms
  | _ => .error (.notDict loc)

def asStr (loc : String) : Json → Except ValidationErr String
  | .str s => .ok s
  | _ => .error (.wrongType loc)

def asInt (loc : String) : Json → Except ValidationErr Int
  | .num n => .ok n
  | _ => .error (.wrongType loc)

def asArr (loc : String) : Json → Except ValidationErr (List Json)
  | .arr l => .ok l
  | _ => .error (.wrongType loc)

/-- A required field: present, or a validation error naming the field. -/
def requireField (ms : List (String × Json)) (k : String) : Except ValidationErr Json :=
  match getField ms k with
  | some v => .ok v
  | none => .error (.missingField k)

/-- Validate a homogeneous list of strings (the `choices` field). -/
def strList (loc : String) : List Json → Except ValidationErr (List String)
  | [] => .ok []
  | j :: rest => do
    let s ← asStr loc j
    let more ← strList loc rest
    return s :: more

/-- Validation of one quiz item, modelling pydantic validation of
`QuizItem`: `question` a string, `choices` a list of strings,
`correct_index` an integer, `explanation` an optional string (absent or
`null` becomes `none`).  Extra fields are ignored (pydantic default).
Deliberately absent, as in the source model: any check on the length of
`choices` or on the range of `correct_index`.  Model restriction:
pydantic's lenient cross-type coercions (int-to-str, bool-to-int, ...) are
omitted. -/
def validateQuizItem (j : Json) : Except ValidationErr QuizItem := do
  let ms ← asObj itemLoc j
  let q ← asStr kQuestion (← requireField ms kQuestion)
  let cJ ← asArr kChoices (← requireField ms kChoices)
  let cs ← strList kChoices cJ
  let i ← asInt kCorrectIndex (← requireField ms kCorrectIndex)
  let ex ← match getField ms kExplanation with
    | none => pure none
    | some .null => pure none
    | some v => do
      let e ← asStr kExplanation v
      pure (some e)
  return ⟨q, cs, i, ex⟩

/-- Validate each element of the `quiz` array, in order. -/
def validateItems : List Json → Except ValidationErr (List QuizItem)
  | [] => .ok []
  | j :: rest => do
    let it ← validateQuizItem j
    let more ← validateItems rest
    return it :: more

/-- `PdfSummaryWithQuiz.parse_obj(data)` (`main.py` line 107, `server.py`
line 200): validate parsed JSON against the schema.  No check relates the
quiz length to the requested question count. -/
def parse_obj (j : Json) : Except ValidationErr PdfSummaryWithQuiz := do
  let ms ← asObj rootLoc j
  let s ← asStr kSummary (← requireField ms kSummary)
  let qJ ← asArr kQuiz (← requireField ms kQuiz)
  let items ← validateItems qJ
  return ⟨s, items⟩

/-- Classified terminal failures of one request, one constructor per
`RuntimeError` raised by the source. -/
inductive PipeError where
  | downloadFailure (url : String) (cause : String)
  | generationFailure (cause : String)
  | malformedResponse (cause : String) (snippet : List Char)
  | schemaViolation (cause : ValidationErr) (data : Json)

/-- The normalize-parse-validate tail of `summarize_and_quiz_pdf_bytes`
(`main.py` lines 86-114) and of `summarize_and_quiz_pdf_from_url`
(`server.py` lines 176-207), applied to the text of the generation
response: on a JSON parse failure the error carries the parse error and the
first 300 characters of the offending text; on a validation failure it
carries the validation error and the parsed data. -/
def summarize_and_quiz_core (rawText : List Char) : Except PipeError PdfSummaryWithQuiz :=
  let t := normalize rawText
  match json_loads t with
  | .error e => .error (.malformedResponse e (t.take 300))
  | .ok data =>
    match parse_obj data with
    | .error e => .error (.schemaViolation e data)
    | .ok r => .ok r

/-- The instruction prompt built by `summarize_and_quiz_pdf_bytes`
(`main.py` lines 50-75) and, with identical text, by
`summarize_and_quiz_pdf_from_url` (`server.py` lines 139-164),
parameterized by the requested question count. -/
def system_prompt (num_questions : Int) : String :=
  "\n당신은 대학 강의를 위한 학습 자료를 만드는 보조 교사입니다.\n\n주어진 PDF 내용을 바탕으로 아래 JSON 형식에 맞게 출력하세요.\n\n\x7b\n  \"summary\": \"PDF 전체 내용을 한국어로 5~7문장으로 요약한 텍스트\",\n  \"quiz\": [\n    \x7b\n      \"question\": \"객관식 문제의 질문 (한국어)\",\n      \"choices\": [\"선택지1\", \"선택지2\", \"선택지3\", \"선택지4\"],\n      \"correct_index\": 0,\n      \"explanation\": \"정답과 관련한 간단한 해설 (한국어)\"\n    \x7d\n  ]\n\x7d\n\n요구사항:\n- quiz 배열에는 정확히 "
    ++ toString num_questions ++
    "개의 문제만 포함하세요.\n- 각 choices는 4개의 보기를 가지게 하세요.\n- correct_index는 0부터 3 사이의 정수입니다.\n- summary와 quiz의 내용은 모두 PDF 내용에 기반해야 합니다.\n- 반드시 위 JSON 형식 그대로를 출력하고,\n  다른 설명, 자연어 문장, 마크다운, 코드블록, 주석은 절대 추가하지 마세요.\n"

/-- `summarize_and_quiz_pdf_bytes` (`main.py` lines 44-114).  The Gemini
call is injected as `generate` (PDF bytes and prompt to raw response text);
a failure there, caught by `except Exception`, becomes a generation
failure. -/
def summarize_and_quiz_pdf_bytes (generate : List Nat → String → Except String (List Char))
    (pdf_bytes : List Nat) (num_questions : Int) : Except PipeError PdfSummaryWithQuiz :=
  match generate pdf_bytes (system_prompt num_questions) with
  | .error e => .error (.generationFailure e)
  | .ok raw => summarize_and_quiz_core raw

/-- Python `pdf_url.strip()` on a string value. -/
def pyStripStr (s : String) : String :=
  String.mk (stripWsL s.data)

/-- `_download_pdf` (`server.py` lines 63-72).  The HTTP layer is injected
as `fetch` (`httpx.get` plus `raise_for_status`, returning the body bytes);
any error it signals is wrapped, together with the stripped URL, in the
single download-failure class. -/
def _download_pdf (fetch : String → Except String (List Nat)) (pdf_url : String) :
    Except PipeError (List Nat) :=
  let u := pyStripStr pdf_url
  match fetch u with
  | .ok b => .ok b
  | .error e => .error (.downloadFailure u e)

/-- `summarize_and_quiz_pdf_from_url` (`server.py` lines 111-207): download
the PDF, then run the same prompt-generate-normalize-parse-validate
pipeline as `summarize_and_quiz_pdf_bytes`. -/
def summarize_and_quiz_pdf_from_url (fetch : String → Except String (List Nat))
    (generate : List Nat → String → Except String (List Char))
    (pdf_url : String) (num_questions : Int) : Except PipeError PdfSummaryWithQuiz :=
  match _download_pdf fetch pdf_url with
  | .error e => .error e
  | .ok b =>
    match generate b (system_prompt num_questions) with
    | .error e => .error (.generationFailure e)
    | .ok raw => summarize_and_quiz_core raw

/-- Default summary prompt of `summarize_pdf_from_url` (`server.py` line
80). -/
def default_prompt : String :=
  "이 PDF를 한국어로 간단히 요약해줘. 5문장 이내로."

/-- `summarize_pdf_from_url` (`server.py` lines 77-105): download the PDF,
call the generation service with the given prompt, and return the response
text as the `summary` field, with no further processing. -/
def summarize_pdf_from_url (fetch : String → Except String (List Nat))
    (generate : List Nat → String → Except String String)
    (pdf_url : String) (prompt : String) : Except PipeError PdfSummary :=
  match _download_pdf fetch pdf_url with
  | .error e => .error e
  | .ok b =>
    match generate b prompt with
    | .error e => .error (.generationFailure e)
    | .ok t => .ok ⟨t⟩

/-- Hexadecimal digit character (lower case), for the serializer. -/
def hexDigitChar (n : Nat) : Char :=
  if n < 10 then Char.ofNat (48 + n) else Char.ofNat (87 + n)

/-- JSON string escaping of one character, for the serializer of the wire
shape defined in the interface contract: quote and backslash get a
backslash escape, control characters a `\u00XX` escape, everything else is
literal. -/
def escapeChar (c : Char) : List Char :=
  if c = '"' then ['\\', '"']
  else if c = '\\' then ['\\', '\\']
  else if c.toNat < 32 then
    ['\\', 'u', '0', '0', hexDigitChar (c.toNat / 16), hexDigitChar (c.toNat % 16)]
  else [c]

/-- JSON string escaping of a character list. -/
def escapeChars : List Char → List Char
  | [] => []
  | c :: cs => escapeChar c ++ escapeChars cs

/-- A JSON string literal for the serializer. -/
def renderString (s : String) : List Char :=
  '"' :: escapeChars s.data ++ ['"']

/-- Decimal digits of a natural number, most significant first; the fuel is
structural (any fuel above the digit count gives the same answer). -/
def natCharsFuel : Nat → Nat → List Char
  | 0, _ => []
  | f + 1, n =>
    if n < 10 then [hexDigitChar n]
    else natCharsFuel f (n / 10) ++ [hexDigitChar (n % 10)]

/-- Decimal digits of a natural number, most significant first. -/
def natChars (n : Nat) : List Char :=
  natCharsFuel (n + 1) n

/-- A JSON integer literal for the serializer. -/
def renderInt (i : Int) : List Char :=
  if i < 0 then '-' :: natChars i.natAbs else natChars i.toNat

/-- Comma-separated concatenation, for the serializer. -/
def commaSep : List (List Char) → List Char
  | [] => []
  | [x] => x
  | x :: xs => x ++ ',' :: commaSep xs

/-- One serialized object member. -/
def renderMember (k : String) (v : List Char) : List Char :=
  renderString k ++ ':' :: v

/-- Serialized `choices` array. -/
def renderChoices (cs : List String) : List Char :=
  '[' :: commaSep (cs.map renderString) ++ [']']

/-- Serialization of one quiz item in the wire JSON shape of the interface
contract: `question`, `choices`, `correct_index`, and `explanation` only
when present. -/
def renderItem (it : QuizItem) : List Char :=
  '\x7b' :: (renderMember kQuestion (renderString it.question)
    ++ ',' :: renderMember kChoices (renderChoices it.choices)
    ++ ',' :: renderMember kCorrectIndex (renderInt it.correct_index)
    ++ (match it.explanation with
        | none => []
        | some e => ',' :: renderMember kExplanation (renderString e))
    ++ ['\x7d'])

/-- Serialized `quiz` array. -/
def renderQuiz (l : List QuizItem) : List Char :=
  '[' :: commaSep (l.map renderItem) ++ [']']

/-- Serialization of a `PdfSummaryWithQuiz` value in the wire JSON shape of
the interface contract. -/
def renderSWQ (v : PdfSummaryWithQuiz) : List Char :=
  '\x7b' :: (renderMember kSummary (renderString v.summary)
    ++ ',' :: renderMember kQuiz (renderQuiz v.quiz)
    ++ ['\x7d'])

/-- The JSON value denoted by the serialization of one quiz item. -/
def encodeItem (it : QuizItem) : Json :=
  .obj ([(kQuestion, .str it.question),
    (kChoices, .arr (it.choices.map .str)),
    (kCorrectIndex, .num it.correct_index)]
    ++ (match it.explanation with
        | none => []
        | some e => [(kExplanation, .str e)]))

/-- The JSON value denoted by the serialization of a `PdfSummaryWithQuiz`. -/
def encodeJson (v : PdfSummaryWithQuiz) : Json :=
  .obj [(kSummary, .str v.summary), (kQuiz, .arr (v.quiz.map encodeItem))]


/-- Fuel sufficient for the parser to traverse one serialized quiz item. -/
def needItem (it : QuizItem) : Nat := 2 * it.choices.length + 12

/-- Fuel sufficient for the parser to traverse serialized quiz elements. -/
def needElems (l : List QuizItem) : Nat := (l.map needItem).sum + 2 * l.length

/-- Fuel sufficient for the parser to traverse a serialized result object. -/
def needSWQ (v : PdfSummaryWithQuiz) : Nat := needElems v.quiz + 9

/-- The data-model invariant of a quiz item: `correct_index` indexes a real
entry of `choices`. -/
def correct_index_ok (it : QuizItem) : Bool :=
  decide (0 ≤ it.correct_index) && decide (it.correct_index < (it.choices.length : Int))

/-- The data-model invariant over a whole result value. -/
def quiz_invariant (v : PdfSummaryWithQuiz) : Bool :=
  v.quiz.all correct_index_ok

/-- Concrete inputs used by the witnesses and counterexamples below. -/
def w1item1 : QuizItem := ⟨"문제1", ["가", "나", "다", "라"], 0, some "해설"⟩

def w1item2 : QuizItem := ⟨"문제2", ["w", "x", "y", "z"], 3, none⟩

def w1v : PdfSummaryWithQuiz := ⟨"요약", [w1item1, w1item2]⟩

def w1raw : List Char := renderSWQ w1v

def w1gen : List Nat → String → Except String (List Char) := fun _ _ => .ok w1raw

def w2item1 : QuizItem := ⟨"q1", ["a", "b", "c", "d"], 5, none⟩

def w2item2 : QuizItem := ⟨"q2", ["only", "two"], -1, none⟩

def w2v : PdfSummaryWithQuiz := ⟨"s", [w2item1, w2item2]⟩

def w2raw : List Char := renderSWQ w2v

def w2gen : List Nat → String → Except String (List Char) := fun _ _ => .ok w2raw

def cex3raw : String := "\x60\x60\x60ab\x60cd\x60\x60\x60"

def cex3kept : String := "ab\x60cd"

def cex3claim : String := "abcd"

def cex4raw : String := "\x60\x60\x60 x \x60\x60\x60"

def w4text : String := "abc"

def cex5raw : String := "\x7b\"summary\": \"x\", \"quiz\": [\x7d"

def w5raw : String := "not json"

def w6raw : String := "\x7b\"summary\": \"x\"\x7d"

def w6json : Json := .obj [(kSummary, .str "x")]

def w8fetch : String → Except String (List Nat) := fun _ => .error "connection refused"

def w8url : String := "  https://example.com/lecture.pdf\n"

def w8cleanUrl : String := "https://example.com/lecture.pdf"

def cex9raw : String :=
  "\x7b\"summary\": \"s\", \"quiz\": [\x7b\"question\": \"q\", \"choices\": [\"a\", \"b\", \"c\", \"d\"], \"correct_index\": 5\x7d]\x7d"

def cex9v : PdfSummaryWithQuiz := ⟨"s", [⟨"q", ["a", "b", "c", "d"], 5, none⟩]⟩

def w9raw : String :=
  "\x7b\"summary\": \"s\", \"quiz\": [\x7b\"question\": \"q\", \"choices\": [\"a\", \"b\", \"c\", \"d\"], \"correct_index\": 2\x7d]\x7d"

def w9v : PdfSummaryWithQuiz := ⟨"s", [⟨"q", ["a", "b", "c", "d"], 2, none⟩]⟩

def w10text : String := "  \x60\x60\x60json 요약 \x60\x60\x60  "

def w10fetch : String → Except String (List Nat) := fun _ => .ok [37, 80, 68, 70]

def w10gen : List Nat → String → Except String String := fun _ _ => .ok w10text

def w10url : String := "https://example.com/a.pdf"

set_option maxRecDepth 100000



lemma hexVal_hexDigitChar (d : Nat) (h : d < 16) : hexVal (hexDigitChar d) = some d := by
  interval_cases d <;> rfl

lemma hexVal_zero : hexVal '0' = some 0 := rfl

lemma skipJWs_cons (c : Char) (l : List Char) (h : isJWs c = false) :
    skipJWs (c :: l) = c :: l := by
  simp [skipJWs, List.dropWhile_cons, h]

lemma psb_escape (cs : List Char) (acc rest : List Char) :
    parseStringBody (escapeChars cs ++ '"' :: rest) acc =
      .ok (String.mk (acc.reverse ++ cs), rest) := by
  induction cs generalizing acc with
  | nil =>
    rw [escapeChars, List.nil_append, parseStringBody.eq_def]
    simp
  | cons c cs ih =>
    by_cases hq : c = '"'
    · subst hq
      rw [escapeChars, escapeChar, if_pos rfl]
      rw [show ['\\', '"'] ++ escapeChars cs ++ '"' :: rest
        = '\\' :: '"' :: (escapeChars cs ++ '"' :: rest) by simp]
      rw [parseStringBody.eq_def]
      simp only [reduceIte, show ¬('\\' : Char) = '"' by decide]
      simp [escCode, ih]
    · by_cases hb : c = '\\'
      · subst hb
        rw [escapeChars, escapeChar, if_neg (by decide), if_pos rfl]
        rw [show ['\\', '\\'] ++ escapeChars cs ++ '"' :: rest
          = '\\' :: '\\' :: (escapeChars cs ++ '"' :: rest) by simp]
        rw [parseStringBody.eq_def]
        simp [escCode, ih]
      · by_cases hc : c.toNat < 32
        · rw [escapeChars, escapeChar, if_neg hq, if_neg hb, if_pos hc]
          rw [show ['\\', 'u', '0', '0', hexDigitChar (c.toNat / 16), hexDigitChar (c.toNat % 16)]
              ++ escapeChars cs ++ '"' :: rest
            = '\\' :: 'u' :: '0' :: '0' :: hexDigitChar (c.toNat / 16) :: hexDigitChar (c.toNat % 16)
              :: (escapeChars cs ++ '"' :: rest) by simp]
          rw [parseStringBody.eq_def]
          simp only [hexVal_zero, hexVal_hexDigitChar (c.toNat / 16) (by omega),
            hexVal_hexDigitChar (c.toNat % 16) (by omega)]
          simp only [show ¬('\\' : Char) = '"' by decide, reduceIte]
          rw [show ((0 * 16 + 0) * 16 + c.toNat / 16) * 16 + c.toNat % 16 = c.toNat by omega]
          simp [Char.ofNat_toNat, ih]
        · rw [escapeChars, escapeChar, if_neg hq, if_neg hb, if_neg hc]
          rw [show [c] ++ escapeChars cs ++ '"' :: rest
            = c :: (escapeChars cs ++ '"' :: rest) by simp]
          rw [parseStringBody.eq_def]
          simp [hq, hb, hc, ih]

lemma psb_renderTail (s : String) (rest : List Char) :
    parseStringBody (escapeChars s.data ++ '"' :: rest) [] = .ok (s, rest) := by
  rw [psb_escape]
  rfl

lemma pv_string (fuel : Nat) (s : String) (rest : List Char) :
    parseValue (fuel + 1) (renderString s ++ rest) = .ok (.str s, rest) := by
  rw [show renderString s ++ rest = '"' :: (escapeChars s.data ++ '"' :: rest) by
    simp [renderString]]
  rw [parseValue.eq_def]
  simp [skipJWs, isJWs, psb_renderTail]

lemma digit_hexDigitChar (d : Nat) (h : d < 10) : (hexDigitChar d).isDigit = true := by
  interval_cases d <;> rfl

lemma toNat_hexDigitChar (d : Nat) (h : d < 10) : (hexDigitChar d).toNat = 48 + d := by
  interval_cases d <;> rfl

lemma takeWhile_all_append (p : Char → Bool) (l rest : List Char)
    (hl : ∀ c ∈ l, p c = true) (hr : ∀ c, rest.head? = some c → p c = false) :
    (l ++ rest).takeWhile p = l ∧ (l ++ rest).dropWhile p = rest := by
  induction l with
  | nil =>
    cases rest with
    | nil => simp
    | cons c r =>
      have := hr c rfl
      simp [List.takeWhile_cons, List.dropWhile_cons, this]
  | cons a l ih =>
    have ha := hl a (by simp)
    have h2 := ih (fun c hc => hl c (by simp [hc]))
    simp [List.takeWhile_cons, List.dropWhile_cons, ha, h2.1, h2.2]

lemma natCharsFuel_spec (f : Nat) : ∀ n, n < f →
    natCharsFuel f n ≠ [] ∧ (∀ c ∈ natCharsFuel f n, c.isDigit = true) ∧
    ∀ a : Nat, (natCharsFuel f n).foldl (fun a c => a * 10 + (c.toNat - 48)) a
      = a * 10 ^ (natCharsFuel f n).length + n := by
  induction f with
  | zero => intro n h; omega
  | succ f ih =>
    intro n h
    by_cases h10 : n < 10
    · rw [natCharsFuel.eq_def]
      simp only [if_pos h10]
      refine ⟨by simp, ?_, ?_⟩
      · intro c hc
        simp at hc
        subst hc
        exact digit_hexDigitChar n h10
      · intro a
        simp [toNat_hexDigitChar n h10]
    · have hdiv : n / 10 < f := by omega
      obtain ⟨hne, hdig, hfold⟩ := ih (n / 10) hdiv
      rw [natCharsFuel.eq_def]
      simp only [if_neg h10]
      refine ⟨by simp, ?_, ?_⟩
      · intro c hc
        rw [List.mem_append] at hc
        rcases hc with hc | hc
        · exact hdig c hc
        · simp at hc
          subst hc
          exact digit_hexDigitChar (n % 10) (by omega)
      · intro a
        rw [List.foldl_append, hfold a]
        simp [toNat_hexDigitChar (n % 10) (by omega), pow_succ]
        ring_nf
        omega

lemma natChars_ne_nil (n : Nat) : natChars n ≠ [] :=
  (natCharsFuel_spec (n + 1) n (by omega)).1

lemma natChars_digits (n : Nat) : ∀ c ∈ natChars n, c.isDigit = true :=
  (natCharsFuel_spec (n + 1) n (by omega)).2.1

lemma parseNat_natChars (n : Nat) (rest : List Char)
    (hr : ∀ c, rest.head? = some c → c.isDigit = false) :
    parseNat (natChars n ++ rest) = .ok (n, rest) := by
  have hsplit := takeWhile_all_append (fun c => c.isDigit) (natChars n) rest
    (natChars_digits n) hr
  obtain ⟨d, ds, hds⟩ := List.exists_cons_of_ne_nil (natChars_ne_nil n)
  rw [parseNat, hsplit.1, hsplit.2, hds]
  simp only []
  rw [← hds]
  have hfold := (natCharsFuel_spec (n + 1) n (by omega)).2.2 0
  rw [show natChars n = natCharsFuel (n + 1) n from rfl, hfold]
  simp

lemma digit_specials (c : Char) (h : c.isDigit = true) :
    isJWs c = false ∧ ¬c = '\x7b' ∧ ¬c = '[' ∧ ¬c = '"' ∧ ¬c = 't' ∧ ¬c = 'f'
      ∧ ¬c = 'n' ∧ ¬c = '-' := by
  refine ⟨?_, ?_, ?_, ?_, ?_, ?_, ?_, ?_⟩
  · rw [Bool.eq_false_iff]
    intro hws
    simp only [isJWs, Bool.or_eq_true, decide_eq_true_eq] at hws
    rcases hws with ((rfl | rfl) | rfl) | rfl <;> exact absurd h (by decide)
  all_goals (rintro rfl; exact absurd h (by decide))

lemma pv_digits (fuel n : Nat) (rest : List Char)
    (hr : ∀ c, rest.head? = some c → c.isDigit = false) :
    parseValue (fuel + 1) (natChars n ++ rest) = .ok (.num (n : Int), rest) := by
  obtain ⟨d, ds, hds⟩ := List.exists_cons_of_ne_nil (natChars_ne_nil n)
  have hd : d.isDigit = true := natChars_digits n d (by rw [hds]; simp)
  obtain ⟨hws, h1, h2, h3, h4, h5, h6, h7⟩ := digit_specials d hd
  rw [hds, List.cons_append, parseValue.eq_def]
  simp only [skipJWs_cons _ _ hws]
  simp only [h1, h2, h3, h4, h5, h6, h7, if_false, reduceIte, hd, if_true]
  rw [← List.cons_append, ← hds, parseNat_natChars n rest hr]

lemma pv_int (fuel : Nat) (i : Int) (rest : List Char)
    (hr : ∀ c, rest.head? = some c → c.isDigit = false) :
    parseValue (fuel + 1) (renderInt i ++ rest) = .ok (.num i, rest) := by
  by_cases hneg : i < 0
  · rw [renderInt, if_pos hneg, List.cons_append, parseValue.eq_def]
    simp only [skipJWs_cons _ _ (by decide : isJWs '-' = false)]
    simp only [show ¬('-' : Char) = '\x7b' by decide, show ¬('-' : Char) = '[' by decide,
      show ¬('-' : Char) = '"' by decide, show ¬('-' : Char) = 't' by decide,
      show ¬('-' : Char) = 'f' by decide, show ¬('-' : Char) = 'n' by decide,
      reduceIte]
    rw [parseNat_natChars i.natAbs rest hr]
    have hi : (-(i.natAbs : Int)) = i := by omega
    simp only []
    rw [hi]
  · rw [renderInt, if_neg hneg, pv_digits fuel i.toNat rest hr]
    have hi : ((i.toNat : Int)) = i := by omega
    rw [hi]

lemma commaSep_single (x : List Char) : commaSep [x] = x := rfl

lemma commaSep_cons2 (x y : List Char) (l : List (List Char)) :
    commaSep (x :: y :: l) = x ++ ',' :: commaSep (y :: l) := rfl

lemma pm_cons (fuel : Nat) (k : String) (vtext rem rest : List Char) (j : Json)
    (ms : List (String × Json))
    (hv : parseValue fuel (vtext ++ ',' :: rem) = .ok (j, ',' :: rem))
    (hm : parseMembers fuel rem = .ok (ms, rest)) :
    parseMembers (fuel + 1) (renderMember k vtext ++ ',' :: rem) = .ok ((k, j) :: ms, rest) := by
  rw [show renderMember k vtext ++ ',' :: rem
    = '"' :: (escapeChars k.data ++ '"' :: (':' :: (vtext ++ ',' :: rem))) by
      simp [renderMember, renderString]]
  rw [parseMembers.eq_def]
  simp only [skipJWs_cons _ _ (by decide : isJWs '"' = false)]
  simp only [psb_renderTail]
  simp only [skipJWs_cons _ _ (by decide : isJWs ':' = false)]
  simp only [hv]
  simp only [skipJWs_cons _ _ (by decide : isJWs ',' = false)]
  simp [hm]

lemma pm_last (fuel : Nat) (k : String) (vtext rest : List Char) (j : Json)
    (hv : parseValue fuel (vtext ++ '\x7d' :: rest) = .ok (j, '\x7d' :: rest)) :
    parseMembers (fuel + 1) (renderMember k vtext ++ '\x7d' :: rest) = .ok ([(k, j)], rest) := by
  rw [show renderMember k vtext ++ '\x7d' :: rest
    = '"' :: (escapeChars k.data ++ '"' :: (':' :: (vtext ++ '\x7d' :: rest))) by
      simp [renderMember, renderString]]
  rw [parseMembers.eq_def]
  simp only [skipJWs_cons _ _ (by decide : isJWs '"' = false)]
  simp only [psb_renderTail]
  simp only [skipJWs_cons _ _ (by decide : isJWs ':' = false)]
  simp only [hv]
  simp only [skipJWs_cons _ _ (by decide : isJWs '\x7d' = false)]

lemma pe_cons (fuel : Nat) (vtext rem rest : List Char) (j : Json) (vs : List Json)
    (hv : parseValue fuel (vtext ++ ',' :: rem) = .ok (j, ',' :: rem))
    (he : parseElems fuel rem = .ok (vs, rest)) :
    parseElems (fuel + 1) (vtext ++ ',' :: rem) = .ok (j :: vs, rest) := by
  rw [parseElems.eq_def]
  simp only [hv]
  simp only [skipJWs_cons _ _ (by decide : isJWs ',' = false)]
  simp [he]

lemma pe_last (fuel : Nat) (vtext rest : List Char) (j : Json)
    (hv : parseValue fuel (vtext ++ ']' :: rest) = .ok (j, ']' :: rest)) :
    parseElems (fuel + 1) (vtext ++ ']' :: rest) = .ok ([j], rest) := by
  rw [parseElems.eq_def]
  simp only [hv]
  simp only [skipJWs_cons _ _ (by decide : isJWs ']' = false)]

lemma pe_strings (cs : List String) : ∀ (c0 : String) (fuel : Nat) (rest : List Char),
    2 * cs.length + 2 ≤ fuel →
    parseElems fuel (commaSep ((c0 :: cs).map renderString) ++ ']' :: rest)
      = .ok ((c0 :: cs).map Json.str, rest) := by
  induction cs with
  | nil =>
    intro c0 fuel rest h
    obtain ⟨f1, rfl⟩ : ∃ f1, fuel = f1 + 1 := ⟨fuel - 1, by omega⟩
    obtain ⟨f2, rfl⟩ : ∃ f2, f1 = f2 + 1 := ⟨f1 - 1, by omega⟩
    rw [List.map_cons, List.map_nil, commaSep_single]
    exact pe_last (f2 + 1) _ rest _ (pv_string f2 c0 (']' :: rest))
  | cons c1 cs ih =>
    intro c0 fuel rest h
    obtain ⟨f1, rfl⟩ : ∃ f1, fuel = f1 + 1 := ⟨fuel - 1, by omega⟩
    obtain ⟨f2, rfl⟩ : ∃ f2, f1 = f2 + 1 := ⟨f1 - 1, by omega⟩
    rw [List.map_cons, List.map_cons, commaSep_cons2, List.append_assoc, List.cons_append]
    have hrec := ih c1 (f2 + 1) rest (by simp at h ⊢; omega)
    rw [List.map_cons] at hrec
    have hstr := pv_string f2 c0
      (',' :: (commaSep (renderString c1 :: cs.map renderString) ++ ']' :: rest))
    have := pe_cons (f2 + 1) _ _ rest _ _ hstr hrec
    simpa using this

lemma pv_choices (cs : List String) (fuel : Nat) (rest : List Char)
    (h : 2 * cs.length + 3 ≤ fuel) :
    parseValue fuel (renderChoices cs ++ rest) = .ok (.arr (cs.map Json.str), rest) := by
  obtain ⟨f1, rfl⟩ : ∃ f1, fuel = f1 + 1 := ⟨fuel - 1, by omega⟩
  rw [show renderChoices cs ++ rest = '[' :: (commaSep (cs.map renderString) ++ ']' :: rest) by
    simp [renderChoices]]
  rw [parseValue.eq_def]
  simp only [skipJWs_cons _ _ (by decide : isJWs '[' = false)]
  simp only [show ¬('[' : Char) = '\x7b' by decide, reduceIte]
  cases cs with
  | nil =>
    rw [List.map_nil]
    simp only [commaSep, List.nil_append]
    simp only [skipJWs_cons _ _ (by decide : isJWs ']' = false)]
    simp
  | cons c0 cs =>
    have hes := pe_strings cs c0 f1 rest (by simp at h ⊢; omega)
    simp only [List.map_cons] at hes ⊢
    have hZ : commaSep (renderString c0 :: cs.map renderString) ++ ']' :: rest
        = '"' :: (escapeChars c0.data ++ '"' ::
          (match cs with
           | [] => ']' :: rest
           | c1 :: cs => ',' :: (commaSep ((c1 :: cs).map renderString) ++ ']' :: rest))) := by
      cases cs with
      | nil => simp [commaSep_single, renderString]
      | cons c1 cs => simp [commaSep_cons2, renderString]
    rw [hZ]
    simp only [skipJWs_cons _ _ (by decide : isJWs '"' = false)]
    rw [← hZ]
    split
    · rename_i r2 heq
      rw [hZ] at heq
      simp at heq
    · rw [hes]

lemma head_cons_not_digit (c : Char) (h : c.isDigit = false) (X : List Char) :
    ∀ d, ((c :: X).head? = some d) → d.isDigit = false := by
  intro d hd
  simp at hd
  subst hd
  exact h

lemma pv_item (it : QuizItem) (fuel : Nat) (rest : List Char) (h : needItem it ≤ fuel) :
    parseValue fuel (renderItem it ++ rest) = .ok (encodeItem it, rest) := by
  obtain ⟨q, cs, i, ex⟩ := it
  simp only [needItem] at h
  cases ex with
  | none =>
    obtain ⟨g, rfl⟩ : ∃ g, fuel = g + 5 := ⟨fuel - 5, by omega⟩
    have hInt : parseValue (g + 1) (renderInt i ++ '\x7d' :: rest) = .ok (.num i, '\x7d' :: rest) :=
      pv_int g i _ (head_cons_not_digit _ (by decide) _)
    have hM3 := pm_last (g + 1) kCorrectIndex (renderInt i) rest _ hInt
    have hCh : parseValue (g + 2) (renderChoices cs
        ++ ',' :: (renderMember kCorrectIndex (renderInt i) ++ '\x7d' :: rest))
        = .ok (.arr (cs.map Json.str), _) := pv_choices cs (g + 2) _ (by simp at h ⊢; omega)
    have hM2 := pm_cons (g + 2) kChoices (renderChoices cs) _ rest _ _ hCh hM3
    have hStr := pv_string (g + 2) q (',' :: (renderMember kChoices (renderChoices cs)
      ++ ',' :: (renderMember kCorrectIndex (renderInt i) ++ '\x7d' :: rest)))
    have hM1 := pm_cons (g + 3) kQuestion (renderString q) _ rest _ _ hStr hM2
    rw [show renderItem ⟨q, cs, i, none⟩ ++ rest
      = '\x7b' :: (renderMember kQuestion (renderString q)
        ++ ',' :: (renderMember kChoices (renderChoices cs)
        ++ ',' :: (renderMember kCorrectIndex (renderInt i) ++ '\x7d' :: rest))) by
      simp [renderItem]]
    rw [parseValue.eq_def]
    simp only [skipJWs_cons _ _ (by decide : isJWs '\x7b' = false)]
    simp only [reduceIte]
    have hZ : renderMember kQuestion (renderString q)
        ++ ',' :: (renderMember kChoices (renderChoices cs)
        ++ ',' :: (renderMember kCorrectIndex (renderInt i) ++ '\x7d' :: rest))
        = '"' :: (escapeChars kQuestion.data ++ '"' :: (':' :: (renderString q
          ++ ',' :: (renderMember kChoices (renderChoices cs)
          ++ ',' :: (renderMember kCorrectIndex (renderInt i) ++ '\x7d' :: rest))))) := by
      simp [renderMember, renderString]
    rw [hZ]
    simp only [skipJWs_cons _ _ (by decide : isJWs '"' = false)]
    rw [← hZ]
    split
    · rename_i r2 heq
      rw [hZ] at heq
      simp at heq
    · rw [hM1]
      simp [encodeItem]
  | some e =>
    obtain ⟨g, rfl⟩ : ∃ g, fuel = g + 6 := ⟨fuel - 6, by omega⟩
    have hExp : parseValue (g + 1) (renderString e ++ '\x7d' :: rest)
        = .ok (.str e, '\x7d' :: rest) := pv_string g e _
    have hM4 := pm_last (g + 1) kExplanation (renderString e) rest _ hExp
    have hInt : parseValue (g + 2) (renderInt i ++ ',' :: (renderMember kExplanation
        (renderString e) ++ '\x7d' :: rest)) = .ok (.num i, _) :=
      pv_int (g + 1) i _ (head_cons_not_digit _ (by decide) _)
    have hM3 := pm_cons (g + 2) kCorrectIndex (renderInt i) _ rest _ _ hInt hM4
    have hCh : parseValue (g + 3) (renderChoices cs
        ++ ',' :: (renderMember kCorrectIndex (renderInt i)
        ++ ',' :: (renderMember kExplanation (renderString e) ++ '\x7d' :: rest)))
        = .ok (.arr (cs.map Json.str), _) := pv_choices cs (g + 3) _ (by simp at h ⊢; omega)
    have hM2 := pm_cons (g + 3) kChoices (renderChoices cs) _ rest _ _ hCh hM3
    have hStr := pv_string (g + 3) q (',' :: (renderMember kChoices (renderChoices cs)
      ++ ',' :: (renderMember kCorrectIndex (renderInt i)
      ++ ',' :: (renderMember kExplanation (renderString e) ++ '\x7d' :: rest))))
    have hM1 := pm_cons (g + 4) kQuestion (renderString q) _ rest _ _ hStr hM2
    rw [show renderItem ⟨q, cs, i, some e⟩ ++ rest
      = '\x7b' :: (renderMember kQuestion (renderString q)
        ++ ',' :: (renderMember kChoices (renderChoices cs)
        ++ ',' :: (renderMember kCorrectIndex (renderInt i)
        ++ ',' :: (renderMember kExplanation (renderString e) ++ '\x7d' :: rest)))) by
      simp [renderItem]]
    rw [parseValue.eq_def]
    simp only [skipJWs_cons _ _ (by decide : isJWs '\x7b' = false)]
    simp only [reduceIte]
    have hZ : renderMember kQuestion (renderString q)
        ++ ',' :: (renderMember kChoices (renderChoices cs)
        ++ ',' :: (renderMember kCorrectIndex (renderInt i)
        ++ ',' :: (renderMember kExplanation (renderString e) ++ '\x7d' :: rest)))
        = '"' :: (escapeChars kQuestion.data ++ '"' :: (':' :: (renderString q
          ++ ',' :: (renderMember kChoices (renderChoices cs)
          ++ ',' :: (renderMember kCorrectIndex (renderInt i)
          ++ ',' :: (renderMember kExplanation (renderString e) ++ '\x7d' :: rest)))))) := by
      simp [renderMember, renderString]
    rw [hZ]
    simp only [skipJWs_cons _ _ (by decide : isJWs '"' = false)]
    rw [← hZ]
    split
    · rename_i r2 heq
      rw [hZ] at heq
      simp at heq
    · rw [hM1]
      simp [encodeItem]

lemma pe_items (l : List QuizItem) : ∀ (it0 : QuizItem) (fuel : Nat) (rest : List Char),
    needElems l + needItem it0 + 2 ≤ fuel →
    parseElems fuel (commaSep ((it0 :: l).map renderItem) ++ ']' :: rest)
      = .ok ((it0 :: l).map encodeItem, rest) := by
  induction l with
  | nil =>
    intro it0 fuel rest h
    obtain ⟨f1, rfl⟩ : ∃ f1, fuel = f1 + 1 := ⟨fuel - 1, by omega⟩
    rw [List.map_cons, List.map_nil, commaSep_single]
    exact pe_last f1 _ rest _ (pv_item it0 f1 (']' :: rest) (by simp [needElems] at h; omega))
  | cons it1 l ih =>
    intro it0 fuel rest h
    obtain ⟨f1, rfl⟩ : ∃ f1, fuel = f1 + 1 := ⟨fuel - 1, by omega⟩
    rw [List.map_cons, List.map_cons, commaSep_cons2, List.append_assoc, List.cons_append]
    have hrec := ih it1 f1 rest (by simp [needElems, List.sum_cons] at h ⊢; omega)
    rw [List.map_cons] at hrec
    have hit := pv_item it0 f1
      (',' :: (commaSep (renderItem it1 :: l.map renderItem) ++ ']' :: rest))
      (by simp [needElems, List.sum_cons] at h; omega)
    have := pe_cons f1 _ _ rest _ _ hit hrec
    simpa using this

lemma pv_quiz (l : List QuizItem) (fuel : Nat) (rest : List Char)
    (h : needElems l + 3 ≤ fuel) :
    parseValue fuel (renderQuiz l ++ rest) = .ok (.arr (l.map encodeItem), rest) := by
  obtain ⟨f1, rfl⟩ : ∃ f1, fuel = f1 + 1 := ⟨fuel - 1, by omega⟩
  rw [show renderQuiz l ++ rest = '[' :: (commaSep (l.map renderItem) ++ ']' :: rest) by
    simp [renderQuiz]]
  rw [parseValue.eq_def]
  simp only [skipJWs_cons _ _ (by decide : isJWs '[' = false)]
  simp only [show ¬('[' : Char) = '\x7b' by decide, reduceIte]
  cases l with
  | nil =>
    rw [List.map_nil]
    simp only [commaSep, List.nil_append]
    simp only [skipJWs_cons _ _ (by decide : isJWs ']' = false)]
    simp
  | cons it0 l =>
    have hes := pe_items l it0 f1 rest (by simp [needElems, List.sum_cons] at h ⊢; omega)
    simp only [List.map_cons] at hes ⊢
    have hZ : commaSep (renderItem it0 :: l.map renderItem) ++ ']' :: rest
        = '\x7b' :: ((renderItem it0).tail
          ++ (match l with
              | [] => ']' :: rest
              | it1 :: l => ',' :: (commaSep ((it1 :: l).map renderItem) ++ ']' :: rest))) := by
      cases l with
      | nil => simp [commaSep_single, renderItem]
      | cons it1 l => simp [commaSep_cons2, renderItem]
    rw [hZ]
    simp only [skipJWs_cons _ _ (by decide : isJWs '\x7b' = false)]
    rw [← hZ]
    split
    · rename_i r2 heq
      rw [hZ] at heq
      simp at heq
    · rw [hes]

lemma pv_swq (v : PdfSummaryWithQuiz) (fuel : Nat) (rest : List Char)
    (h : needSWQ v ≤ fuel) :
    parseValue fuel (renderSWQ v ++ rest) = .ok (encodeJson v, rest) := by
  obtain ⟨s, quiz⟩ := v
  simp only [needSWQ, needElems] at h
  obtain ⟨g, rfl⟩ : ∃ g, fuel = g + 5 := ⟨fuel - 5, by omega⟩
  have hQuiz : parseValue (g + 2) (renderQuiz quiz ++ '\x7d' :: rest)
      = .ok (.arr (quiz.map encodeItem), '\x7d' :: rest) :=
    pv_quiz quiz (g + 2) _ (by simp [needElems]; omega)
  have hM2 := pm_last (g + 2) kQuiz (renderQuiz quiz) rest _ hQuiz
  have hStr := pv_string (g + 2) s (',' :: (renderMember kQuiz (renderQuiz quiz) ++ '\x7d' :: rest))
  have hM1 := pm_cons (g + 3) kSummary (renderString s) _ rest _ _ hStr hM2
  rw [show renderSWQ ⟨s, quiz⟩ ++ rest
    = '\x7b' :: (renderMember kSummary (renderString s)
      ++ ',' :: (renderMember kQuiz (renderQuiz quiz) ++ '\x7d' :: rest)) by
    simp [renderSWQ]]
  rw [parseValue.eq_def]
  simp only [skipJWs_cons _ _ (by decide : isJWs '\x7b' = false)]
  simp only [reduceIte]
  have hZ : renderMember kSummary (renderString s)
      ++ ',' :: (renderMember kQuiz (renderQuiz quiz) ++ '\x7d' :: rest)
      = '"' :: (escapeChars kSummary.data ++ '"' :: (':' :: (renderString s
        ++ ',' :: (renderMember kQuiz (renderQuiz quiz) ++ '\x7d' :: rest)))) := by
    simp [renderMember, renderString]
  rw [hZ]
  simp only [skipJWs_cons _ _ (by decide : isJWs '"' = false)]
  rw [← hZ]
  split
  · rename_i r2 heq
    rw [hZ] at heq
    simp at heq
  · rw [hM1]
    simp [encodeJson]

lemma commaSep_renderString_len (cs : List String) :
    cs.length ≤ (commaSep (cs.map renderString)).length := by
  induction cs with
  | nil => simp [commaSep]
  | cons c0 cs ih =>
    cases cs with
    | nil => simp [commaSep_single, renderString]
    | cons c1 cs =>
      rw [List.map_cons, List.map_cons, commaSep_cons2]
      rw [List.map_cons] at ih
      simp only [List.length_append, List.length_cons, renderString] at ih ⊢
      omega

lemma needItem_le_len (it : QuizItem) : needItem it ≤ 2 * (renderItem it).length := by
  obtain ⟨q, cs, i, ex⟩ := it
  have hcs := commaSep_renderString_len cs
  cases ex with
  | none =>
    simp only [needItem, renderItem, renderMember, renderString, renderChoices,
      List.length_append, List.length_cons]
    simp
    omega
  | some e =>
    simp only [needItem, renderItem, renderMember, renderString, renderChoices,
      List.length_append, List.length_cons]
    simp
    omega

lemma renderItem_len_pos (it : QuizItem) : 1 ≤ (renderItem it).length := by
  obtain ⟨q, cs, i, ex⟩ := it
  cases ex <;> simp [renderItem]

lemma needElems_le_len (l : List QuizItem) :
    needElems l ≤ 4 * (commaSep (l.map renderItem)).length + 2 := by
  induction l with
  | nil => simp [needElems]
  | cons it0 l ih =>
    cases l with
    | nil =>
      have := needItem_le_len it0
      simp [needElems, commaSep_single]
      omega
    | cons it1 l =>
      rw [List.map_cons, List.map_cons, commaSep_cons2]
      rw [List.map_cons] at ih
      have h0 := needItem_le_len it0
      have h1 := renderItem_len_pos it0
      simp only [needElems, List.map_cons, List.sum_cons, List.length_cons,
        List.length_append] at ih ⊢
      omega

lemma needSWQ_le_len (v : PdfSummaryWithQuiz) :
    needSWQ v ≤ 4 * (renderSWQ v).length + 4 := by
  obtain ⟨s, quiz⟩ := v
  have h := needElems_le_len quiz
  simp only [needSWQ, renderSWQ, renderMember, renderString, renderQuiz,
    List.length_cons, List.length_append]
  simp
  omega

lemma json_loads_renderSWQ (v : PdfSummaryWithQuiz) :
    json_loads (renderSWQ v) = .ok (encodeJson v) := by
  rw [json_loads]
  have h := pv_swq v (4 * (renderSWQ v).length + 4) [] (needSWQ_le_len v)
  rw [List.append_nil] at h
  rw [h]
  simp [skipJWs]

lemma normalize_renderSWQ (v : PdfSummaryWithQuiz) :
    normalize (renderSWQ v) = renderSWQ v := by
  obtain ⟨s, quiz⟩ := v
  have hshape : renderSWQ ⟨s, quiz⟩ = '\x7b' :: ((renderMember kSummary (renderString s)
      ++ ',' :: renderMember kQuiz (renderQuiz quiz)) ++ ['\x7d']) := by
    simp [renderSWQ]
  have hstrip : stripWsL (renderSWQ ⟨s, quiz⟩) = renderSWQ ⟨s, quiz⟩ := by
    rw [hshape]
    rw [stripWsL, pyStrip]
    rw [List.dropWhile_cons]
    simp only [show isPyWs '\x7b' = false by decide, Bool.false_eq_true, if_false]
    rw [show ('\x7b' :: ((renderMember kSummary (renderString s)
        ++ ',' :: renderMember kQuiz (renderQuiz quiz)) ++ ['\x7d'])).reverse
      = '\x7d' :: ((renderMember kSummary (renderString s)
        ++ ',' :: renderMember kQuiz (renderQuiz quiz)).reverse ++ ['\x7b']) by simp]
    rw [List.dropWhile_cons]
    simp only [show isPyWs '\x7d' = false by decide, Bool.false_eq_true, if_false]
    simp
  rw [normalize]
  simp only [hstrip]
  rw [hshape]
  simp only [show fence.isPrefixOf ('\x7b' :: ((renderMember kSummary (renderString s)
      ++ ',' :: renderMember kQuiz (renderQuiz quiz)) ++ ['\x7d'])) = false by
    simp [fence, List.isPrefixOf]]
  simp

lemma dropWhile_eq_self_head (p : Char → Bool) (l : List Char)
    (h : ∀ c, l.head? = some c → p c = false) : l.dropWhile p = l := by
  cases l with
  | nil => rfl
  | cons c l => simp [List.dropWhile_cons, h c rfl]

lemma stripWsL_eq_self (l : List Char)
    (hhead : ∀ c, l.head? = some c → isPyWs c = false)
    (hlast : ∀ c, l.getLast? = some c → isPyWs c = false) : stripWsL l = l := by
  rw [stripWsL, pyStrip, dropWhile_eq_self_head _ _ hhead,
    dropWhile_eq_self_head _ _ (fun c hc => hlast c (by rwa [List.head?_reverse] at hc))]
  simp

lemma dropWhile_replicate_append (p : Char → Bool) (c : Char) (hc : p c = true)
    (n : Nat) (l : List Char) : (List.replicate n c ++ l).dropWhile p = l.dropWhile p := by
  induction n with
  | zero => simp
  | succ n ih => simp [List.replicate_succ, List.dropWhile_cons, hc, ih]

lemma getLast_of_ne_nil (l : List Char) (h : l ≠ []) : ∃ x, l.getLast? = some x := by
  cases hg : l.getLast? with
  | none => exact absurd (List.getLast?_eq_none_iff.mp hg) h
  | some x => exact ⟨x, rfl⟩

lemma claim3_strip_mid (a b : Nat) (mid : List Char) (hne : mid ≠ [])
    (hhead : ∀ c, mid.head? = some c → ¬c = '\x60')
    (hlast : ∀ c, mid.getLast? = some c → ¬c = '\x60') :
    pyStrip (fun c => c = '\x60')
      (List.replicate a '\x60' ++ mid ++ List.replicate b '\x60') = mid := by
  rw [pyStrip, List.append_assoc,
    dropWhile_replicate_append _ _ (by simp) a (mid ++ List.replicate b '\x60')]
  have hstep1 : List.dropWhile (fun c => decide (c = '\x60')) (mid ++ List.replicate b '\x60')
      = mid ++ List.replicate b '\x60' := by
    refine dropWhile_eq_self_head _ _ ?_
    intro c hc
    obtain ⟨m, mid', rfl⟩ := List.exists_cons_of_ne_nil hne
    rw [List.cons_append] at hc
    simp at hc
    subst hc
    simp only [decide_eq_false_iff_not]
    exact hhead m rfl
  rw [hstep1, List.reverse_append, List.reverse_replicate,
    dropWhile_replicate_append _ _ (by simp) b mid.reverse]
  have hstep2 : List.dropWhile (fun c => decide (c = '\x60')) mid.reverse = mid.reverse := by
    refine dropWhile_eq_self_head _ _ ?_
    intro c hc
    rw [List.head?_reverse] at hc
    simp [hlast c hc]
  rw [hstep2, List.reverse_reverse]

lemma claim3_fence_prefix (a : Nat) (ha : 3 ≤ a) (l : List Char) :
    fence.isPrefixOf (List.replicate a '\x60' ++ l) = true := by
  obtain ⟨a3, rfl⟩ : ∃ a3, a = a3 + 3 := ⟨a - 3, by omega⟩
  rw [show a3 + 3 = 3 + a3 by omega]
  simp [List.replicate_add, fence, List.isPrefixOf]

lemma ebind_ok {ε α β : Type} (a : α) (f : α → Except ε β) :
    (Except.ok a >>= f : Except ε β) = f a := rfl

lemma ebind_err {ε α β : Type} (e : ε) (f : α → Except ε β) :
    (Except.error e >>= f : Except ε β) = .error e := rfl

lemma strList_map (loc : String) (cs : List String) :
    strList loc (cs.map Json.str) = .ok cs := by
  induction cs with
  | nil => rfl
  | cons c cs ih => simp [strList, asStr, ebind_ok, ih]

lemma validateQuizItem_encodeItem (it : QuizItem) :
    validateQuizItem (encodeItem it) = .ok it := by
  obtain ⟨q, cs, i, ex⟩ := it
  cases ex with
  | none =>
    simp [validateQuizItem, encodeItem, asObj, requireField, getField,
      kQuestion, kChoices, kCorrectIndex, kExplanation, asStr, asArr, asInt,
      ebind_ok, strList_map]
  | some e =>
    simp [validateQuizItem, encodeItem, asObj, requireField, getField,
      kQuestion, kChoices, kCorrectIndex, kExplanation, asStr, asArr, asInt,
      ebind_ok, strList_map]

lemma validateItems_map (l : List QuizItem) :
    validateItems (l.map encodeItem) = .ok l := by
  induction l with
  | nil => rfl
  | cons it l ih => simp [validateItems, validateQuizItem_encodeItem, ebind_ok, ih]

lemma parse_obj_encodeJson (v : PdfSummaryWithQuiz) :
    parse_obj (encodeJson v) = .ok v := by
  obtain ⟨s, quiz⟩ := v
  simp [parse_obj, encodeJson, asObj, requireField, getField, kSummary, kQuiz,
    asStr, asArr, ebind_ok, validateItems_map]

lemma validateItems_pointwise (qs : List Json) : ∀ (items : List QuizItem),
    items.length = qs.length →
    (∀ i : Fin qs.length, ∃ hi : i.1 < items.length,
      validateQuizItem (qs.get i) = .ok (items.get ⟨i.1, hi⟩)) →
    validateItems qs = .ok items := by
  induction qs with
  | nil =>
    intro items hlen _
    cases items with
    | nil => rfl
    | cons it items => simp at hlen
  | cons j qs ih =>
    intro items hlen hpt
    cases items with
    | nil => simp at hlen
    | cons it items =>
      obtain ⟨_, h0⟩ := hpt ⟨0, by simp⟩
      simp only [List.get] at h0
      have hrec := ih items (by simp at hlen; omega) (fun i => by
        obtain ⟨hi, h⟩ := hpt ⟨i.1 + 1, by simp⟩
        exact ⟨by simp at hi ⊢; omega, by simpa using h⟩)
      rw [validateItems, h0, ebind_ok, hrec]
      rfl


/-- Claim C1: for every PDF byte string and requested count of at least one,
if the generation adapter returns text that normalizes and parses to a JSON
object whose `summary` field is a string, whose `quiz` field is an array of
exactly the requested number of element objects, and whose elements validate
(in order) to quiz items with valid indices, then
`summarize_and_quiz_pdf_bytes` returns that summary and exactly those items,
in the same order, with quiz length equal to the requested count. -/
theorem claim_C1_pipeline_success (generate : List Nat → String → Except String (List Char))
    (pdf_bytes : List Nat) (num_questions : Int) (raw : List Char)
    (ms : List (String × Json)) (s : String) (qs : List Json) (items : List QuizItem)
    (_hN : 1 ≤ num_questions)
    (hgen : generate pdf_bytes (system_prompt num_questions) = .ok raw)
    (hparse : json_loads (normalize raw) = .ok (.obj ms))
    (hsum : getField ms kSummary = some (.str s))
    (hquiz : getField ms kQuiz = some (.arr qs))
    (hcount : qs.length = num_questions.toNat)
    (hlen : items.length = qs.length)
    (hitems : ∀ i : Fin qs.length, ∃ hi : i.1 < items.length,
      validateQuizItem (qs.get i) = .ok (items.get ⟨i.1, hi⟩))
    (_hvalid : ∀ it ∈ items, 0 ≤ it.correct_index
      ∧ it.correct_index < (it.choices.length : Int)) :
    summarize_and_quiz_pdf_bytes generate pdf_bytes num_questions = .ok ⟨s, items⟩
      ∧ items.length = num_questions.toNat := by
  have hpo : parse_obj (.obj ms) = .ok ⟨s, items⟩ := by
    rw [parse_obj]
    simp only [asObj, ebind_ok]
    rw [requireField, hsum]
    simp only [asStr, ebind_ok]
    rw [requireField, hquiz]
    simp only [asArr, ebind_ok]
    rw [validateItems_pointwise qs items hlen hitems]
    rfl
  refine ⟨?_, by omega⟩
  have hstep : summarize_and_quiz_pdf_bytes generate pdf_bytes num_questions
      = summarize_and_quiz_core raw := by
    rw [summarize_and_quiz_pdf_bytes, hgen]
  rw [hstep, summarize_and_quiz_core]
  simp only [hparse, hpo]

/-- Witness for C1 at a concrete two-item response. -/
theorem claim_C1_witness :
    summarize_and_quiz_pdf_bytes w1gen [] 2 = .ok ⟨"요약", [w1item1, w1item2]⟩
      ∧ ([w1item1, w1item2] : List QuizItem).length = (2 : Int).toNat :=
  claim_C1_pipeline_success w1gen [] 2 w1raw
    [(kSummary, .str "요약"), (kQuiz, .arr [encodeItem w1item1, encodeItem w1item2])]
    "요약" [encodeItem w1item1, encodeItem w1item2] [w1item1, w1item2]
    (by decide) rfl rfl rfl rfl rfl rfl
    (by intro i; fin_cases i <;> exact ⟨by decide, rfl⟩)
    (by decide)

/-- Claim C2: the validator does not cross-check the quiz length against the
requested count, the number of choices, or the range of `correct_index`:
whenever the generation adapter returns the serialization of any
`PdfSummaryWithQuiz` value whatsoever (out-of-range indices, wrong choice
counts, any quiz length), the pipeline accepts it and returns exactly that
value. -/
theorem claim_C2_validator_permissive (generate : List Nat → String → Except String (List Char))
    (pdf_bytes : List Nat) (num_questions : Int) (raw : List Char) (s : String)
    (items : List QuizItem)
    (hgen : generate pdf_bytes (system_prompt num_questions) = .ok raw)
    (hparse : json_loads (normalize raw) = .ok (encodeJson ⟨s, items⟩)) :
    summarize_and_quiz_pdf_bytes generate pdf_bytes num_questions = .ok ⟨s, items⟩ := by
  have hstep : summarize_and_quiz_pdf_bytes generate pdf_bytes num_questions
      = summarize_and_quiz_core raw := by
    rw [summarize_and_quiz_pdf_bytes, hgen]
  rw [hstep, summarize_and_quiz_core]
  simp only [hparse, parse_obj_encodeJson]

/-- Witness for C2: an item with `correct_index` 5 among 4 choices and an
item with only 2 choices both pass validation and are returned, with quiz
length 2 although 4 questions were requested. -/
theorem claim_C2_witness :
    summarize_and_quiz_pdf_bytes w2gen [] 4 = .ok w2v
      ∧ w2v.quiz.length ≠ (4 : Int).toNat
      ∧ w2item1.correct_index = 5 ∧ w2item1.choices.length = 4
      ∧ w2item2.choices.length ≠ 4 :=
  ⟨claim_C2_validator_permissive w2gen [] 4 w2raw "s" [w2item1, w2item2] rfl rfl,
    by decide, by decide, by decide, by decide⟩

/-- Claim C3 (amended): when the trimmed text begins with three backticks,
the normalizer removes backtick characters only from the two ends of the
text, not from its interior; after that, a leading `json` tag is dropped
(four characters) and the result re-trimmed.  Decomposition form: for a text
made of a leading run of at least three backticks, a core that neither
starts nor ends with a backtick or whitespace, and a trailing run of
backticks, normalization keeps the core (interior backticks intact) and
applies only the `json`-tag step to it. -/
theorem claim_C3_fence_strip_amended (a b : Nat) (mid : List Char)
    (ha : 3 ≤ a) (hne : mid ≠ [])
    (hhead : mid.head?.all (fun c => !isPyWs c && !(c == '\x60')) = true)
    (hlast : mid.getLast?.all (fun c => !isPyWs c && !(c == '\x60')) = true) :
    normalize (List.replicate a '\x60' ++ mid ++ List.replicate b '\x60')
      = if jsonTag.isPrefixOf mid then stripWsL (mid.drop 4) else mid := by
  have hhead' : ∀ c, mid.head? = some c → isPyWs c = false ∧ ¬c = '\x60' := by
    intro c hc
    rw [hc] at hhead
    simp [Option.all] at hhead
    exact hhead
  have hlast' : ∀ c, mid.getLast? = some c → isPyWs c = false ∧ ¬c = '\x60' := by
    intro c hc
    rw [hc] at hlast
    simp [Option.all] at hlast
    exact hlast
  have hstrip : stripWsL (List.replicate a '\x60' ++ mid ++ List.replicate b '\x60')
      = List.replicate a '\x60' ++ mid ++ List.replicate b '\x60' := by
    refine stripWsL_eq_self _ ?_ ?_
    · intro c hc
      obtain ⟨a1, rfl⟩ : ∃ a1, a = a1 + 1 := ⟨a - 1, by omega⟩
      rw [List.replicate_succ] at hc
      simp at hc
      subst hc
      decide
    · intro c hc
      rw [List.getLast?_append] at hc
      cases b with
      | zero =>
        simp at hc
        rcases hc with h | ⟨hnil, _⟩
        · exact (hlast' c h).1
        · exact absurd hnil hne
      | succ b =>
        rw [List.getLast?_replicate] at hc
        simp at hc
        subst hc
        decide
  have hfp : fence.isPrefixOf (List.replicate a '\x60' ++ mid ++ List.replicate b '\x60')
      = true := by
    rw [List.append_assoc]
    exact claim3_fence_prefix a ha _
  rw [normalize]
  simp only [hstrip, hfp, if_true]
  rw [claim3_strip_mid a b mid hne (fun c hc => (hhead' c hc).2) (fun c hc => (hlast' c hc).2)]

/-- Counterexample for C3 as stated: the backtick between `ab` and `cd`
survives normalization, so backticks are not removed from the interior of
the text. -/
theorem claim_C3_counterexample :
    normalize cex3raw.data = cex3kept.data ∧ cex3kept.data ≠ cex3claim.data :=
  ⟨rfl, by decide⟩

/-- Witness for the amended C3 at a concrete fenced text. -/
theorem claim_C3_witness :
    normalize (List.replicate 3 '\x60' ++ cex3kept.data ++ List.replicate 3 '\x60')
      = if jsonTag.isPrefixOf cex3kept.data then stripWsL (cex3kept.data.drop 4)
        else cex3kept.data :=
  claim_C3_fence_strip_amended 3 3 cex3kept.data (by decide) (by decide)
    (by decide) (by decide)

/-- Claim C4 (amended): the normalizer is idempotent on every input whose
normalized form is whitespace-trimmed and does not itself begin with the
fence marker; a second application then returns the text unchanged. -/
theorem claim_C4_idempotent_amended (t : List Char)
    (h1 : stripWsL (normalize t) = normalize t)
    (h2 : fence.isPrefixOf (normalize t) = false) :
    normalize (normalize t) = normalize t := by
  generalize hu : normalize t = u at h1 h2
  rw [normalize]
  simp only [h1, h2]
  simp

/-- Counterexample for C4 as stated: stripping the backtick fence of
a fenced text whose core is padded with blanks exposes whitespace, and a
second application of the normalizer trims it, changing the text again. -/
theorem claim_C4_counterexample :
    normalize (normalize cex4raw.data) ≠ normalize cex4raw.data := by
  decide

/-- Witness for the amended C4 at a concrete plain text. -/
theorem claim_C4_witness :
    stripWsL (normalize w4text.data) = normalize w4text.data
      ∧ fence.isPrefixOf (normalize w4text.data) = false
      ∧ normalize (normalize w4text.data) = normalize w4text.data :=
  ⟨by decide, by decide, claim_C4_idempotent_amended w4text.data (by decide) (by decide)⟩

/-- Claim C5 (amended): for every normalized text that is not valid JSON the
pipeline signals the malformed-response error (no other error class, no
crash), carrying the underlying parse error and the prefix of the first at
most 300 characters of the offending text; when the offending text itself
has at most 300 characters that prefix is the whole text. -/
theorem claim_C5_malformed_amended (raw : List Char) (e : String)
    (h : json_loads (normalize raw) = .error e) :
    summarize_and_quiz_core raw
        = .error (.malformedResponse e ((normalize raw).take 300))
      ∧ ((normalize raw).take 300).length ≤ 300
      ∧ ∃ t, normalize raw = (normalize raw).take 300 ++ t := by
  refine ⟨?_, ?_, ⟨(normalize raw).drop 300, (List.take_append_drop 300 (normalize raw)).symm⟩⟩
  · rw [summarize_and_quiz_core]
    simp only [h]
  · rw [List.length_take]
    omega

/-- Counterexample for C5 as stated: on the spec's own malformed example,
which is shorter than 300 characters, the diagnostic snippet is the entire
offending text, contradicting that the diagnostic never carries the full
text. -/
theorem claim_C5_counterexample :
    summarize_and_quiz_core cex5raw.data
        = .error (.malformedResponse expectingValueMsg cex5raw.data)
      ∧ normalize cex5raw.data = cex5raw.data :=
  ⟨rfl, rfl⟩

/-- Witness for the amended C5 at a concrete non-JSON text. -/
theorem claim_C5_witness :
    summarize_and_quiz_core w5raw.data
        = .error (.malformedResponse expectingValueMsg ((normalize w5raw.data).take 300))
      ∧ ((normalize w5raw.data).take 300).length ≤ 300
      ∧ ∃ t, normalize w5raw.data = (normalize w5raw.data).take 300 ++ t :=
  claim_C5_malformed_amended w5raw.data expectingValueMsg rfl

/-- Claim C6: for every parsed JSON value that does not match the schema the
pipeline signals the schema-violation error carrying the validation error
and the offending parsed data. -/
theorem claim_C6_schema_violation (raw : List Char) (j : Json) (e : ValidationErr)
    (hparse : json_loads (normalize raw) = .ok j)
    (hval : parse_obj j = .error e) :
    summarize_and_quiz_core raw = .error (.schemaViolation e j) := by
  rw [summarize_and_quiz_core]
  simp only [hparse, hval]

/-- Witness for C6: an object with no `quiz` field yields a schema violation
naming the missing `quiz` field and carrying the parsed object. -/
theorem claim_C6_witness :
    json_loads (normalize w6raw.data) = .ok w6json
      ∧ parse_obj w6json = .error (.missingField kQuiz)
      ∧ summarize_and_quiz_core w6raw.data
          = .error (.schemaViolation (.missingField kQuiz) w6json) :=
  ⟨rfl, rfl, claim_C6_schema_violation w6raw.data w6json (.missingField kQuiz) rfl rfl⟩

/-- Claim C7: round-trip; serializing any `PdfSummaryWithQuiz` value in the
defined wire JSON shape and feeding the text through the normalizer, the
parser and the validator reproduces the original value. -/
theorem claim_C7_roundtrip (v : PdfSummaryWithQuiz) :
    summarize_and_quiz_core (renderSWQ v) = .ok v := by
  rw [summarize_and_quiz_core]
  simp only [normalize_renderSWQ, json_loads_renderSWQ, parse_obj_encodeJson]

/-- Claim C8: when the HTTP fetch of the stripped URL fails,
`_download_pdf` signals the download-failure error wrapping the underlying
transport error together with the offending URL; and a failure of
`_download_pdf` is always of that single class. -/
theorem claim_C8_download_failure (fetch : String → Except String (List Nat))
    (pdf_url : String) :
    (∀ e, fetch (pyStripStr pdf_url) = .error e →
        _download_pdf fetch pdf_url = .error (.downloadFailure (pyStripStr pdf_url) e))
      ∧ ∀ err, _download_pdf fetch pdf_url = .error err →
          ∃ e, err = .downloadFailure (pyStripStr pdf_url) e
            ∧ fetch (pyStripStr pdf_url) = .error e := by
  constructor
  · intro e he
    rw [_download_pdf]
    simp only [he]
  · intro err herr
    rw [_download_pdf] at herr
    cases hf : fetch (pyStripStr pdf_url) with
    | ok b =>
      rw [hf] at herr
      simp at herr
    | error e2 =>
      rw [hf] at herr
      have h2 : err = PipeError.downloadFailure (pyStripStr pdf_url) e2 := by
        injection herr with h
        exact h.symm
      exact ⟨e2, h2, rfl⟩

/-- Witness for C8 at a concrete failing fetch, with the stripped URL
carried in the error. -/
theorem claim_C8_witness :
    _download_pdf w8fetch w8url
        = .error (.downloadFailure w8cleanUrl "connection refused")
      ∧ pyStripStr w8url = w8cleanUrl :=
  ⟨(claim_C8_download_failure w8fetch w8url).1 "connection refused" rfl, by decide⟩

/-- Claim C9 (amended): the pipeline copies the generator's items verbatim,
so every item of a pipeline-built value satisfies the index invariant
exactly when the items of the parsed JSON already do; nothing in the data
model or validator enforces it. -/
theorem claim_C9_invariant_amended (raw : List Char) (s : String) (items : List QuizItem)
    (hparse : json_loads (normalize raw) = .ok (encodeJson ⟨s, items⟩))
    (hvalid : ∀ it ∈ items, 0 ≤ it.correct_index
      ∧ it.correct_index < (it.choices.length : Int)) :
    summarize_and_quiz_core raw = .ok ⟨s, items⟩
      ∧ ∀ it ∈ (PdfSummaryWithQuiz.mk s items).quiz,
          0 ≤ it.correct_index ∧ it.correct_index < (it.choices.length : Int) := by
  constructor
  · rw [summarize_and_quiz_core]
    simp only [hparse, parse_obj_encodeJson]
  · exact hvalid

/-- Counterexample for C9 as stated: the pipeline constructs and returns a
value whose only quiz item has `correct_index` 5 with 4 choices, violating
the invariant. -/
theorem claim_C9_counterexample :
    summarize_and_quiz_core cex9raw.data = .ok cex9v ∧ quiz_invariant cex9v = false :=
  ⟨rfl, rfl⟩

/-- Witness for the amended C9 at a concrete in-range response. -/
theorem claim_C9_witness :
    summarize_and_quiz_core w9raw.data = .ok w9v
      ∧ ∀ it ∈ w9v.quiz, 0 ≤ it.correct_index
          ∧ it.correct_index < (it.choices.length : Int) :=
  claim_C9_invariant_amended w9raw.data "s" [⟨"q", ["a", "b", "c", "d"], 2, none⟩]
    rfl (by decide)

/-- Claim C10: `summarize_pdf_from_url` returns the generation response text
verbatim as the `summary` field, with no trimming, fence stripping, parsing
or validation applied to it. -/
theorem claim_C10_raw_summary (fetch : String → Except String (List Nat))
    (generate : List Nat → String → Except String String)
    (pdf_url prompt : String) (b : List Nat) (t : String)
    (hfetch : fetch (pyStripStr pdf_url) = .ok b)
    (hgen : generate b prompt = .ok t) :
    summarize_pdf_from_url fetch generate pdf_url prompt = .ok ⟨t⟩ := by
  rw [summarize_pdf_from_url, _download_pdf]
  simp only [hfetch, hgen]

/-- Witness for C10: a response text padded with blanks and fence markers is
returned untouched, although trimming alone would already change it. -/
theorem claim_C10_witness :
    summarize_pdf_from_url w10fetch w10gen w10url default_prompt = .ok ⟨w10text⟩
      ∧ pyStripStr w10text ≠ w10text :=
  ⟨claim_C10_raw_summary w10fetch w10gen w10url default_prompt [37, 80, 68, 70]
      w10text rfl rfl,
    by decide⟩

end McpSt
